import Mathlib

/-!
Shallow embedding of the 1D-curve processing pipeline of pyXS (src/pyxs/slnXS.py).

Numeric model: the rational-arithmetic parts of the code (set_trans, bkg_cor,
merge) are embedded over `ℚ`, so that all definitions are computable and
concrete runs can be settled by `decide`/`rfl`.  The parts of the code that use
`sqrt`, `exp`, `log`, `sin`, `cos` (avg, plot_Guinier, plot_pr) are embedded
over `ℝ`.  numpy arrays become `List`s, boolean index masks become `List Bool`,
and a python function that can call `exit()` or raise becomes `Option`-valued
(`none` = aborted).
-/

namespace PyXS

/-- `sel mask xs` is numpy boolean-mask indexing `xs[mask]` (truncating at the
shorter of the two, as `np.zipWith`-style alignment of equal-length arrays). -/
def sel {α : Type} (mask : List Bool) (xs : List α) : List α :=
  ((mask.zip xs).filter (fun p => p.1)).map (fun p => p.2)

/-- Dot product of two lists (truncating at the shorter). -/
def dot (a b : List ℚ) : ℚ :=
  ((a.zip b).map (fun p => p.1 * p.2)).sum

/-- Three-list pointwise combination, truncating at the shortest list. -/
def zipw3 {α β γ δ : Type} (f : α → β → γ → δ) :
    List α → List β → List γ → List δ
  | a :: as, b :: bs, c :: cs => f a b c :: zipw3 f as bs cs
  | _, _, _ => []

/-- `pos x` is the numpy test `x > 0`. -/
def pos (x : ℚ) : Bool := decide (0 < x)

/-- The `Data1d` entity of slnXS.py, restricted to the numeric state the
curve-processing pipeline reads and writes: the q grid, the intensity (`data`),
the uncertainty (`err`), the transmission value (`trans`, `-1` = unset), the
beam-center region-of-interest sum (`roi`), and the optional overlap
diagnostics (`q_overlap`, `raw_data1`, `raw_data2`) that `merge` installs. -/
@[ext]
structure Curve (α : Type) where
  qgrid : List α
  data : List α
  err : List α
  trans : α
  roi : α
  q_overlap : Option (List α)
  raw_data1 : Option (List α)
  raw_data2 : Option (List α)
  deriving DecidableEq

/-- `TRANS_EXTERNAL = 0` in slnXS.py. -/
def TRANS_EXTERNAL : ℕ := 0
/-- `TRANS_FROM_BEAM_CENTER = 1` in slnXS.py. -/
def TRANS_FROM_BEAM_CENTER : ℕ := 1
/-- `TRANS_FROM_WAXS = 2` in slnXS.py. -/
def TRANS_FROM_WAXS : ℕ := 2

/-- `Data1d.set_trans(trans, ref_trans)` (slnXS.py lines 169-228).  The
module-wide `trans_mode` global is passed explicitly as `mode`.  Returns
`none` exactly where the python code calls `exit()` (EXTERNAL mode with a
non-positive supplied value).  On an unrecognized mode the python code only
prints a message and falls through, keeping whatever `self.trans` held
before; that fall-through is modelled by leaving `trans` unchanged. -/
def set_trans (mode : ℕ) (c : Curve ℚ) (trans ref_trans : ℚ) :
    Option (Curve ℚ) :=
  let step1 : Option (Curve ℚ) :=
    if mode = TRANS_FROM_BEAM_CENTER then
      some { c with trans := c.roi }
    else if mode = TRANS_FROM_WAXS then
      let idx := c.qgrid.map (fun q => decide ((29/20 : ℚ) < q) && decide (q < 69/20))
      if (sel idx c.qgrid).length < 5 then
        -- fallback: the last 10 of the final 12 positive-intensity samples,
        -- python slice `self.data[self.data > 0][-12:-2]`
        let l := sel (c.data.map pos) c.data
        some { c with trans := ((l.drop (l.length - 12)).dropLast.dropLast).sum }
      else
        some { c with trans := (sel idx c.data).sum }
    else if mode = TRANS_EXTERNAL then
      if trans ≤ 0 then none else some { c with trans := trans }
    else
      some c
  step1.map (fun c1 =>
    if 0 < ref_trans then
      { c1 with
        data := c1.data.map (· * (ref_trans / c1.trans)),
        err := c1.err.map (· * (ref_trans / c1.trans)),
        raw_data1 := c1.raw_data1.map (List.map (· * (ref_trans / c1.trans))),
        raw_data2 := c1.raw_data2.map (List.map (· * (ref_trans / c1.trans))),
        trans := ref_trans }
    else c1)

/-- `Data1d.bkg_cor(dbak, sc_factor, plot_data, ax)` (slnXS.py lines 299-346).
Returns the corrected sample curve together with the transmission scale `sc`
the run records in its provenance comment; `none` where the python code calls
`exit()` (qgrid mismatch).  Note that the raw-diagnostic correction (lines
328-330) sits inside the `if plot_data:` block of the source. -/
def bkg_cor (s dbak : Curve ℚ) (sc_factor : ℚ) (plot_data : Bool) :
    Option (Curve ℚ × ℚ) :=
  if dbak.qgrid = s.qgrid then
    let sc := if s.trans < 0 ∨ dbak.trans < 0 then 1 else s.trans / dbak.trans
    let s1 :=
      if plot_data = true ∧ s.raw_data1.isSome ∧ dbak.raw_data1.isSome then
        { s with
          raw_data1 :=
            match s.raw_data1, dbak.raw_data1 with
            | some a, some b =>
                some (List.zipWith (fun x y => x - y * sc_factor * sc) a b)
            | _, _ => s.raw_data1,
          raw_data2 :=
            match s.raw_data2, dbak.raw_data2 with
            | some a, some b =>
                some (List.zipWith (fun x y => x - y * sc_factor * sc) a b)
            | _, _ => s.raw_data2 }
      else s
    some ({ s1 with
            data := List.zipWith (fun a b => a - b * sc * sc_factor) s1.data dbak.data,
            err := List.zipWith (fun a b => a + b * sc * sc_factor) s1.err dbak.err },
          sc)
  else none

/-- The positive-overlap index mask of `merge`:
`idx = (self.data > 0) & (d1.data > 0)` (slnXS.py line 375). -/
def overlapIdx (s d1 : Curve ℚ) : List Bool :=
  List.zipWith (fun a b => pos a && pos b) s.data d1.data

/-- The window/bounds step of `Data1d.merge` (slnXS.py lines 374-394).
Returns `(qmin, qmax, idx, self')` where `qmin, qmax` are the effective window
bounds the run records in its provenance comment, `idx` the (re)computed index
mask, and `self'` the receiver with the overlap diagnostics installed.
`none` models the `ValueError` of `max()` over an empty selection in the
no-overlap branch. -/
def mergeWindow (s d1 : Curve ℚ) (qmax qmin : ℚ) :
    Option (ℚ × ℚ × List Bool × Curve ℚ) :=
  let idx := overlapIdx s d1
  if 0 < (sel idx s.qgrid).length then
    match (sel idx d1.qgrid).min?, (sel idx s.qgrid).max? with
    | some qmin0, some qmax0 =>
      let qmax1 := if qmax0 < qmax then qmax0 else qmax
      let qmin1 := if qmin < qmin0 then qmin0 else qmin
      let idx2 := s.qgrid.map (fun q => decide (qmin1 < q) && decide (q < qmax1))
      some (qmin1, qmax1, idx2,
        { s with
          q_overlap := some (sel idx2 s.qgrid),
          raw_data1 := some (sel idx2 s.data),
          raw_data2 := some (sel idx2 d1.data) })
    | _, _ => none
  else
    match (sel (s.data.map pos) s.qgrid).max? with
    | none => none
    | some m => some (m, m, idx, s)

/-- `Data1d.merge(d1, qmax, qmin, fix_scale)` (slnXS.py lines 358-436).
Returns `(self', d1', sc, qmin, qmax)`: the merged receiver, the co-operand
(whose intensity and uncertainty the source divides by `sc` in place), the
applied scale, and the window bounds recorded in the provenance comment.
`none` where the source `exit()`s (qgrid mismatch) or raises (empty `max`).
The least-squares solve `np.linalg.lstsq(asmatrix(self.data[idx]).T,
asmatrix(d1.data[idx]).T)` has the closed form
`sc = dot(self[idx], d1[idx]) / dot(self[idx], self[idx])`. -/
def merge (s d1 : Curve ℚ) (qmax qmin fix_scale : ℚ) :
    Option (Curve ℚ × Curve ℚ × ℚ × ℚ × ℚ) :=
  if d1.qgrid = s.qgrid then
    match mergeWindow s d1 qmax qmin with
    | none => none
    | some (qmin1, qmax1, idx2, s1) =>
      let ln := (sel idx2 s1.qgrid).length
      let fs := if ln < 2 ∧ fix_scale < 0 then 1 else fix_scale
      let sc :=
        if 0 < fs then fs
        else dot (sel idx2 s1.data) (sel idx2 d1.data) /
             dot (sel idx2 s1.data) (sel idx2 s1.data)
      let d2 := { d1 with data := d1.data.map (· / sc), err := d1.err.map (· / sc) }
      let s2 :=
        if 0 < ln then { s1 with raw_data2 := s1.raw_data2.map (List.map (· / sc)) }
        else s1
      let s3 :=
        if 0 < ln then
          { s2 with
            data := zipw3 (fun m x y => if m then (x + y) / 2 else x) idx2 s2.data d2.data,
            err := zipw3 (fun m x y => if m then (x + y) / 2 else x) idx2 s2.err d2.err }
        else s2
      let s4 :=
        { s3 with
          data := zipw3 (fun q x y => if qmax1 ≤ q then y else x) s3.qgrid s3.data d2.data,
          err := zipw3 (fun q x y => if qmax1 ≤ q then y else x) s3.qgrid s3.err d2.err }
      some (s4, d2, sc, qmin1, qmax1)
  else none

/-- Source-side residual of the scale regression actually solved by `merge`
(slnXS.py line 413): `lstsq` with design column `self.data[idx]` and target
`d1.data[idx]` minimizes `sum ((self_i * t - d1_i)^2)` over `t`. -/
def scaleResid (selfW otherW : List ℚ) (t : ℚ) : ℚ :=
  ((selfW.zip otherW).map (fun p => (p.1 * t - p.2) ^ 2)).sum

/-- Spec-side residual, following the claim wording for C2: the scalar `sc`
minimizing the least-squares residual of
`other.intensity[overlap] * sc ≈ self.intensity[overlap]`, i.e. minimizing
`sum ((other_i * t - self_i)^2)`. -/
def scaleResidSpec (selfW otherW : List ℚ) (t : ℚ) : ℚ :=
  ((selfW.zip otherW).map (fun p => (p.2 * t - p.1) ^ 2)).sum

/-- Spec-side window bounds, following the claim wording for C1:
`qmin = max(caller qmin, smallest grid value where other's intensity is
positive)`, `qmax = min(caller qmax, largest grid value where self's
intensity is positive)`, "where a caller value < 0 means unbounded
(determined from the data alone)". -/
def mergeWindowSpec (s d1 : Curve ℚ) (qmax qmin : ℚ) : Option (ℚ × ℚ) :=
  match (sel (d1.data.map pos) d1.qgrid).min?,
        (sel (s.data.map pos) s.qgrid).max? with
  | some qmin0, some qmax0 =>
      some (if qmin < 0 then qmin0 else max qmin qmin0,
            if qmax < 0 then qmax0 else min qmax qmax0)
  | _, _ => none

/-- `Data1d.avg(dsets, ...)` (slnXS.py lines 243-297), over `ℝ` because the
accumulated uncertainty is divided by `sqrt(n)`.  Curves failing the qgrid
check make the python code `exit()`, modelled as `none`. -/
noncomputable def avg (s : Curve ℝ) (dsets : List (Curve ℝ)) : Option (Curve ℝ) :=
  (dsets.foldl (fun acc d1 =>
      acc.bind (fun c =>
        if d1.qgrid = s.qgrid then
          some { c with
                 trans := c.trans + d1.trans,
                 data := List.zipWith (· + ·) c.data d1.data,
                 err := List.zipWith (· + ·) c.err d1.err }
        else none)) (some s)).map
    (fun c =>
      let n : ℝ := (dsets.length + 1 : ℕ)
      { c with
        trans := c.trans / n,
        data := c.data.map (· / n),
        err := c.err.map (· / Real.sqrt n) })

/-- Inner walk of `np.interp`: `p` is the last grid point at or before the
current position. -/
noncomputable def interpGo (x : ℝ) (p : ℝ × ℝ) : List (ℝ × ℝ) → ℝ
  | [] => p.2
  | q :: rest =>
      if x ≤ p.1 then p.2
      else if x < q.1 then p.2 + (q.2 - p.2) * (x - p.1) / (q.1 - p.1)
      else interpGo x q rest

/-- `np.interp(x, xp, fp)`: piecewise-linear interpolation with clamping to
the end values. -/
noncomputable def interp (x : ℝ) (xp fp : List ℝ) : ℝ :=
  match xp.zip fp with
  | [] => 0
  | p :: rest => interpGo x p rest

/-- `np.sinc`: `sin(pi x)/(pi x)` with value 1 at 0. -/
noncomputable def npsinc (x : ℝ) : ℝ :=
  if x = 0 then 1 else Real.sin (Real.pi * x) / (Real.pi * x)

/-- The unnormalized P(r) sequence of `Data1d.plot_pr` (slnXS.py lines
489-502): clamp `qmax` to the last grid value, build the uniform grid
`np.arange(0, qmax, qmax/len(qgrid))` (which has exactly `len(qgrid)` points
in exact arithmetic), interpolate, fill the `q*rg < 1` region with the
Guinier model, apply the upper half of a Hanning window
(`np.hanning(2n+1)[n:-1]`, entry `j` being `1/2 - cos(2 pi (n+j)/(2n))/2`),
and transform with the kernel `r^2 * sinc(q r / pi)` against `I(q) q^2`. -/
noncomputable def prUnnorm (c : Curve ℝ) (i0 rg qmax : ℝ) (dmax : ℕ) : List ℝ :=
  let qm := if c.qgrid.getLastD 0 < qmax then c.qgrid.getLastD 0 else qmax
  let n := c.qgrid.length
  let tqgrid : List ℝ := (List.range n).map (fun k => (k : ℝ) * (qm / (n : ℝ)))
  let tint0 := tqgrid.map (fun q => interp q c.qgrid c.data)
  let tint1 := List.zipWith
    (fun q t => if q * rg < 1 then i0 * Real.exp (-(q * rg) ^ 2 / 3) else t)
    tqgrid tint0
  let tw := (List.range n).map
    (fun j => 1 / 2 - Real.cos (2 * Real.pi * ((n : ℝ) + (j : ℝ)) / (2 * (n : ℝ))) / 2)
  let tint2 := List.zipWith (· * ·) tint1 tw
  let trgrid : List ℝ := (List.range dmax).map (fun r => (r : ℝ))
  let tt := List.zipWith (fun t q => t * q ^ 2) tint2 tqgrid
  trgrid.map (fun r =>
    (List.zipWith (fun q ttq => r ^ 2 * npsinc (q * r / Real.pi) * ttq) tqgrid tt).sum)

/-- Observable outcome of `Data1d.plot_pr`: the sequence handed to the
plotting observer, and the python return value. -/
structure PrOut where
  plotted : List ℝ
  ret : Option (List ℝ)

/-- `Data1d.plot_pr(i0, rg, qmax, dmax)` (slnXS.py lines 479-511): normalizes
the computed P(r) by its sum, plots it, and — having no return statement —
returns `None`. -/
noncomputable def plot_pr (c : Curve ℝ) (i0 rg qmax : ℝ) (dmax : ℕ) : PrOut :=
  let tpr := prUnnorm c i0 rg qmax dmax
  { plotted := tpr.map (· / tpr.sum), ret := none }

/-- `np.polyfit(x, y, 1)`: the degree-1 least-squares fit, highest-order
coefficient first, in the computational closed form. -/
noncomputable def polyfit1 (x y : List ℝ) : ℝ × ℝ :=
  let n : ℝ := x.length
  let sx := x.sum
  let sy := y.sum
  let sxx := (x.map (fun a => a * a)).sum
  let sxy := ((x.zip y).map (fun p => p.1 * p.2)).sum
  let a := (n * sxy - sx * sy) / (n * sxx - sx * sx)
  (a, (sy - a * sx) / n)

/-- One pass of the `while cnt < 10` loop of `Data1d.plot_Guinier` (slnXS.py
lines 455-465), acting on the state `(qe, rg, i0)`. -/
noncomputable def guinierStep (c : Curve ℝ) (qs : ℝ) (fix_qe : Bool)
    (st : ℝ × ℝ × ℝ) : ℝ × ℝ × ℝ :=
  let qe := st.1
  let rg := st.2.1
  let qe1 :=
    if fix_qe = false ∧ 1 / rg < qe ∧ qs + 0.004 < 1 / rg then 1 / rg else qe
  let td1 := (c.qgrid.zip c.data).filter (fun p => decide (qs ≤ p.1))
  let td2 := td1.filter (fun p => decide (p.1 ≤ qe1))
  let xs := td2.map (fun p => p.1 * p.1)
  let ys := td2.map (fun p => Real.log p.2)
  let ab := polyfit1 xs ys
  (qe1, Real.sqrt (-ab.1 * 3), Real.exp ab.2)

/-- `Data1d.plot_Guinier(qs, qe, rg, fix_qe)` (slnXS.py lines 438-477):
clamp `qs` to the first grid value with positive intensity
(`self.qgrid[self.data > 0][0]`, an IndexError — hence `none` — when no
intensity is positive), run the loop body 10 times from the caller's
`(qe, rg)` (the i0 slot starts undefined and is written on every pass),
return the final `(i0, rg)`. -/
noncomputable def plot_Guinier (c : Curve ℝ) (qs qe rg : ℝ) (fix_qe : Bool) :
    Option (ℝ × ℝ) :=
  match (sel (c.data.map (fun x => decide (0 < x))) c.qgrid).head? with
  | none => none
  | some t =>
    let qs1 := if qs < t then t else qs
    let st := (guinierStep c qs1 fix_qe)^[10] (qe, rg, 0)
    some (st.2.2, st.2.1)

/-- Spec-side single Guinier iteration, following the claim wording for C8:
if `fixQe` is false and `qe > 1/Rg > qs + 0.004`, set `qe = 1/Rg`; select the
points with `qs ≤ q ≤ qe`; ordinary least-squares regress `ln(intensity)`
against `q^2`; set `I0 = exp(intercept)` and `Rg = sqrt(-3 slope)`. -/
noncomputable def guinierSpecStep (c : Curve ℝ) (qs : ℝ) (fixQe : Bool)
    (st : ℝ × ℝ × ℝ) : ℝ × ℝ × ℝ :=
  let qe := st.1
  let rg := st.2.1
  let qe1 :=
    if fixQe = false ∧ 1 / rg < qe ∧ qs + 0.004 < 1 / rg then 1 / rg else qe
  let pts := (c.qgrid.zip c.data).filter
    (fun p => decide (qs ≤ p.1) && decide (p.1 ≤ qe1))
  let xs := pts.map (fun p => p.1 ^ 2)
  let ys := pts.map (fun p => Real.log p.2)
  let n : ℝ := xs.length
  let slope := (n * (List.zipWith (fun a b => a * b) xs ys).sum - xs.sum * ys.sum) /
               (n * (xs.map (fun a => a ^ 2)).sum - xs.sum ^ 2)
  let intercept := (ys.sum - slope * xs.sum) / n
  (qe1, Real.sqrt (-3 * slope), Real.exp intercept)

/-- Spec-side Guinier analyzer, following the claim wording for C8: clamp
`qs` up to the first grid value with positive intensity, iterate
`guinierSpecStep` exactly 10 times, return the final `(I0, Rg)`. -/
noncomputable def guinierSpec (c : Curve ℝ) (qs qe rg : ℝ) (fixQe : Bool) :
    Option (ℝ × ℝ) :=
  match ((c.qgrid.zip c.data).filter (fun p => decide (0 < p.2))).head? with
  | none => none
  | some p =>
    let qs1 := max qs p.1
    let st := (guinierSpecStep c qs1 fixQe)^[10] (qe, rg, 0)
    some (st.2.2, st.2.1)

/-! ### Claim C4 : fatal conditions of set_trans -/

/-- Claim C4, counterexample.  The claim requires `set_trans` to fail fatally
on an unrecognized transmission mode; the source (slnXS.py line 215) only
prints a message and falls through, so the embedded call succeeds. -/
theorem set_trans_invalid_mode_not_fatal :
    (set_trans 7 ⟨[1, 2], [3, 4], [1, 1], 5, 0, none, none, none⟩ (-1) (-1)).isSome
      = true := by
  rfl

/-- Claim C4 (amended): `set_trans` fails fatally only in EXTERNAL mode with a
non-positive supplied value; with a positive value it succeeds, and on an
unrecognized mode it merely warns and continues, keeping the previous
transmission value (or the reference value if one is supplied). -/
theorem set_trans_fatal_modes :
    (∀ (c : Curve ℚ) (t r : ℚ), t ≤ 0 → set_trans TRANS_EXTERNAL c t r = none) ∧
    (∀ (c : Curve ℚ) (t r : ℚ), 0 < t → ∃ o, set_trans TRANS_EXTERNAL c t r = some o) ∧
    (∀ (m : ℕ) (c : Curve ℚ) (t r : ℚ), m ≠ TRANS_EXTERNAL →
      m ≠ TRANS_FROM_BEAM_CENTER → m ≠ TRANS_FROM_WAXS →
      ∃ o, set_trans m c t r = some o ∧ o.trans = if 0 < r then r else c.trans) := by
  refine ⟨?_, ?_, ?_⟩
  · intro c t r ht
    simp [set_trans, TRANS_EXTERNAL, TRANS_FROM_BEAM_CENTER, TRANS_FROM_WAXS, ht]
  · intro c t r ht
    simp [set_trans, TRANS_EXTERNAL, TRANS_FROM_BEAM_CENTER, TRANS_FROM_WAXS,
      not_le.mpr ht]
  · intro m c t r h0 h1 h2
    simp only [TRANS_EXTERNAL, TRANS_FROM_BEAM_CENTER, TRANS_FROM_WAXS] at h0 h1 h2
    by_cases hr : 0 < r
    · simp [set_trans, TRANS_EXTERNAL, TRANS_FROM_BEAM_CENTER, TRANS_FROM_WAXS,
        h0, h1, h2, hr]
    · simp [set_trans, TRANS_EXTERNAL, TRANS_FROM_BEAM_CENTER, TRANS_FROM_WAXS,
        h0, h1, h2, hr]

/-- Claim C4, witness for the amended theorem at concrete inputs. -/
theorem set_trans_fatal_modes_witness :
    ((-2 : ℚ) ≤ 0 ∧
      set_trans TRANS_EXTERNAL ⟨[1], [1], [1], -1, 0, none, none, none⟩ (-2) (-1) = none) ∧
    ((0 : ℚ) < 3 ∧
      ∃ o, set_trans TRANS_EXTERNAL ⟨[1], [1], [1], -1, 0, none, none, none⟩ 3 (-1) = some o) ∧
    (∃ o, set_trans 9 ⟨[1], [1], [1], 5, 0, none, none, none⟩ 3 (-1) = some o ∧
      o.trans = if (0 : ℚ) < -1 then -1 else (5 : ℚ)) := by
  refine ⟨⟨by norm_num, set_trans_fatal_modes.1 _ _ _ (by norm_num)⟩,
    ⟨by norm_num, set_trans_fatal_modes.2.1 _ _ _ (by norm_num)⟩,
    set_trans_fatal_modes.2.2 9 _ 3 (-1) (by decide) (by decide) (by decide)⟩

/-! ### Claim C5 : transmission scale in background subtraction -/

/-- Claim C5, counterexample.  The claim says that whenever either
transmission is non-positive (including exactly 0) the scale falls back to 1;
in the source (slnXS.py line 307) the fallback only triggers on a strictly
negative transmission, so with sample transmission exactly 0 the recorded
scale is `0 / 2 = 0`, not 1. -/
theorem bkg_cor_zero_trans_not_unity :
    (bkg_cor ⟨[1, 2], [3, 4], [1, 1], 0, 0, none, none, none⟩
        ⟨[1, 2], [1, 1], [1, 1], 2, 0, none, none, none⟩ 1 false).map
        (fun p => p.2) = some 0 ∧ (0 : ℚ) ≠ 1 := by
  exact ⟨by norm_num [bkg_cor], by norm_num⟩

/-- Claim C5 (amended): in `bkg_cor` the transmission scale is
`sc = sample.trans / background.trans` unless either transmission is strictly
negative, in which case `sc = 1` (with a warning); in particular both
transmissions strictly positive gives the ratio, and a transmission of exactly
0 still produces the ratio, not the unity fallback.  The computation always
completes when the grids agree. -/
theorem bkg_cor_transmission_scale (s dbak : Curve ℚ) (f : ℚ) (pd : Bool)
    (hg : dbak.qgrid = s.qgrid) :
    ∃ out sc, bkg_cor s dbak f pd = some (out, sc) ∧
      sc = (if s.trans < 0 ∨ dbak.trans < 0 then 1 else s.trans / dbak.trans) ∧
      (0 < s.trans → 0 < dbak.trans → sc = s.trans / dbak.trans) ∧
      ((s.trans < 0 ∨ dbak.trans < 0) → sc = 1) := by
  simp only [bkg_cor, if_pos hg]
  refine ⟨_, _, rfl, rfl, ?_, ?_⟩
  · intro hs hb
    rw [if_neg]
    push_neg
    exact ⟨hs.le, hb.le⟩
  · intro h
    rw [if_pos h]

/-- Claim C5, witness for the amended theorem at concrete inputs. -/
theorem bkg_cor_transmission_scale_witness :
    ([1, 2] : List ℚ) = [1, 2] ∧
    ∃ out sc,
      bkg_cor ⟨[1, 2], [3, 4], [1, 1], 6, 0, none, none, none⟩
          ⟨[1, 2], [1, 1], [1, 1], 2, 0, none, none, none⟩ 1 false = some (out, sc) ∧
      sc = (if (6 : ℚ) < 0 ∨ (2 : ℚ) < 0 then 1 else (6 : ℚ) / 2) ∧
      ((0 : ℚ) < 6 → (0 : ℚ) < 2 → sc = (6 : ℚ) / 2) ∧
      (((6 : ℚ) < 0 ∨ (2 : ℚ) < 0) → sc = 1) :=
  ⟨rfl, bkg_cor_transmission_scale _ _ 1 false rfl⟩

/-! ### Claim C6 : raw-diagnostic correction in background subtraction -/

/-- Claim C6, counterexample.  The claim says the retained overlap-diagnostic
raw arrays are background-corrected on every call; in the source the
correction (slnXS.py lines 328-330) sits inside the `if plot_data:` block, so
calling with `plot_data = false` leaves `raw_data1 = [5]` although both curves
retain raw arrays (the corrected value would be `5 - 1 * 1 * 2 = 3`). -/
theorem bkg_cor_raw_skipped_without_plot :
    (bkg_cor ⟨[1, 2], [10, 10], [1, 1], 4, 0, some [1, 2], some [5], some [6]⟩
        ⟨[1, 2], [1, 1], [1, 1], 2, 0, some [1, 2], some [1], some [1]⟩ 1 false).map
        (fun p => p.1.raw_data1) = some (some [5]) ∧
    (5 : ℚ) - 1 * 1 * 2 ≠ 5 := by
  exact ⟨by norm_num [bkg_cor], by norm_num⟩

/-- Claim C6 (amended): when both curves retain overlap-diagnostic raw arrays,
`bkg_cor` corrects them identically to the main intensity (subtracting the
background raw values times `sc_factor` times `sc`) only when diagnostic
plotting is requested; with `plot_data = false` the raw arrays are left
untouched. -/
theorem bkg_cor_raw_correction (s dbak : Curve ℚ) (f : ℚ)
    (hg : dbak.qgrid = s.qgrid)
    (r1 r2 b1 b2 : List ℚ)
    (h1 : s.raw_data1 = some r1) (h2 : s.raw_data2 = some r2)
    (h3 : dbak.raw_data1 = some b1) (h4 : dbak.raw_data2 = some b2) :
    ∃ out sc, bkg_cor s dbak f true = some (out, sc) ∧
      out.raw_data1 = some (List.zipWith (fun x y => x - y * f * sc) r1 b1) ∧
      out.raw_data2 = some (List.zipWith (fun x y => x - y * f * sc) r2 b2) ∧
      ∃ out2 sc2, bkg_cor s dbak f false = some (out2, sc2) ∧
        out2.raw_data1 = some r1 ∧ out2.raw_data2 = some r2 := by
  simp only [bkg_cor, if_pos hg, h1, h2, h3, h4, Option.isSome_some, and_true,
    true_and, and_self, Bool.false_eq_true, false_and, if_true, if_false, ite_true,
    ite_false]
  exact ⟨_, _, rfl, rfl, rfl, _, _, rfl, rfl, rfl⟩

/-- Claim C6, witness for the amended theorem at concrete inputs. -/
theorem bkg_cor_raw_correction_witness :
    ∃ out sc,
      bkg_cor ⟨[1, 2], [10, 10], [1, 1], 4, 0, some [1, 2], some [5], some [6]⟩
          ⟨[1, 2], [1, 1], [1, 1], 2, 0, some [1, 2], some [1], some [1]⟩ 1 true
        = some (out, sc) ∧
      out.raw_data1 = some (List.zipWith (fun x y => x - y * 1 * sc) [5] [1]) ∧
      out.raw_data2 = some (List.zipWith (fun x y => x - y * 1 * sc) [6] [1]) ∧
      ∃ out2 sc2,
        bkg_cor ⟨[1, 2], [10, 10], [1, 1], 4, 0, some [1, 2], some [5], some [6]⟩
            ⟨[1, 2], [1, 1], [1, 1], 2, 0, some [1, 2], some [1], some [1]⟩ 1 false
          = some (out2, sc2) ∧
        out2.raw_data1 = some [5] ∧ out2.raw_data2 = some [6] :=
  bkg_cor_raw_correction
    ⟨[1, 2], [10, 10], [1, 1], 4, 0, some [1, 2], some [5], some [6]⟩
    ⟨[1, 2], [1, 1], [1, 1], 2, 0, some [1, 2], some [1], some [1]⟩
    1 rfl [5] [6] [1] [1] rfl rfl rfl rfl

/-! ### Supporting lemmas -/

theorem ite_lt_min {α : Type} [LinearOrder α] (a b : α) :
    (if b < a then b else a) = min a b := by
  rcases le_or_lt a b with h | h
  · rw [if_neg (not_lt.mpr h), min_eq_left h]
  · rw [if_pos h, min_eq_right h.le]

theorem ite_lt_max {α : Type} [LinearOrder α] (a b : α) :
    (if a < b then b else a) = max a b := by
  rcases le_or_lt b a with h | h
  · rw [if_neg (not_lt.mpr h), max_eq_left h]
  · rw [if_pos h, max_eq_right h.le]

theorem sel_map_false {α : Type} (g : ℚ → Bool) (hg : ∀ q, g q = false) :
    ∀ (l : List ℚ) (xs : List α), sel (l.map g) xs = [] := by
  intro l
  induction l with
  | nil => intro xs; simp [sel]
  | cons q l ih =>
    intro xs
    cases xs with
    | nil => simp [sel]
    | cons x xs => simpa [sel, hg q] using ih xs

theorem zipw3_same {f : ℚ → ℚ → ℚ → ℚ} (hf : ∀ q x, f q x x = x) :
    ∀ (g l : List ℚ), l.length ≤ g.length → zipw3 f g l l = l := by
  intro g
  induction g with
  | nil =>
    intro l hl
    rw [List.length_nil, Nat.le_zero, List.length_eq_zero] at hl
    subst hl
    rfl
  | cons q g ih =>
    intro l hl
    cases l with
    | nil => rfl
    | cons x l =>
      show f q x x :: zipw3 f g l l = x :: l
      rw [hf q x, ih l (by simpa using hl)]

/-! ### Claim C1 : merge window bounds -/

/-- Claim C1, counterexample.  The claim reads a caller bound `< 0` as
"unbounded, determined from the data".  In the source (slnXS.py line 381)
`qmax` is updated only when `qmax0 < qmax`, so with the default caller
`qmax = -1` and positive grid values the recorded upper bound stays `-1`
instead of becoming the data-implied `qmax0 = 3`, and the recomputed window
`(qmin, qmax)` is empty.  `mergeWindowSpec` is the claim-side reading, which
yields 3. -/
theorem mergeWindow_neg_qmax_not_unbounded :
    (mergeWindow ⟨[0, 1, 2, 3], [1, 1, 1, 1], [1, 1, 1, 1], -1, 0, none, none, none⟩
        ⟨[0, 1, 2, 3], [1, 2, 4, 1], [1, 1, 1, 1], -1, 0, none, none, none⟩
        (-1) (-1)).map (fun r => r.2.1) = some (-1) ∧
    (mergeWindowSpec ⟨[0, 1, 2, 3], [1, 1, 1, 1], [1, 1, 1, 1], -1, 0, none, none, none⟩
        ⟨[0, 1, 2, 3], [1, 2, 4, 1], [1, 1, 1, 1], -1, 0, none, none, none⟩
        (-1) (-1)).map (fun r => r.2) = some 3 ∧
    ((-1 : ℚ)) ≠ 3 := by
  refine ⟨by rfl, by rfl, by norm_num⟩

/-- Claim C1 (amended): when the positive-overlap index set is non-empty, the
effective window bounds recorded by `merge` are literally
`qmin = max(caller qmin, qmin0)` and `qmax = min(caller qmax, qmax0)`, where
`qmin0`/`qmax0` are the smallest/largest grid values over the joint
positive-overlap region (both intensities positive) — not over each curve's
own positive region, and with no special treatment of negative caller values
(so a negative caller `qmax` below the grid makes the recomputed window
empty, while a negative caller `qmin` is effectively unbounded because of the
`max`).  The overlap index set is then recomputed as all grid points strictly
inside `(qmin, qmax)` and the two curves' raw intensities there are
snapshotted as the overlap diagnostic. -/
theorem mergeWindow_bounds (s d1 : Curve ℚ) (qmax qmin : ℚ)
    (hg : d1.qgrid = s.qgrid)
    (h0 : 0 < (sel (overlapIdx s d1) s.qgrid).length) :
    ∃ qmin0 qmax0 idx2,
      (sel (overlapIdx s d1) d1.qgrid).min? = some qmin0 ∧
      (sel (overlapIdx s d1) s.qgrid).max? = some qmax0 ∧
      idx2 = s.qgrid.map (fun q =>
        decide (max qmin qmin0 < q) && decide (q < min qmax qmax0)) ∧
      mergeWindow s d1 qmax qmin =
        some (max qmin qmin0, min qmax qmax0, idx2,
          { s with
            q_overlap := some (sel idx2 s.qgrid),
            raw_data1 := some (sel idx2 s.data),
            raw_data2 := some (sel idx2 d1.data) }) := by
  have hne : sel (overlapIdx s d1) s.qgrid ≠ [] := by
    intro hnil
    rw [hnil] at h0
    simp at h0
  have hgs : sel (overlapIdx s d1) d1.qgrid = sel (overlapIdx s d1) s.qgrid := by
    rw [hg]
  obtain ⟨qmax0, hmax⟩ : ∃ y, (sel (overlapIdx s d1) s.qgrid).max? = some y := by
    cases hm : (sel (overlapIdx s d1) s.qgrid).max? with
    | none => exact absurd (List.max?_eq_none_iff.mp hm) hne
    | some y => exact ⟨y, rfl⟩
  obtain ⟨qmin0, hmin⟩ : ∃ y, (sel (overlapIdx s d1) d1.qgrid).min? = some y := by
    rw [hgs]
    cases hm : (sel (overlapIdx s d1) s.qgrid).min? with
    | none => exact absurd (List.min?_eq_none_iff.mp hm) hne
    | some y => exact ⟨y, rfl⟩
  refine ⟨qmin0, qmax0, _, hmin, hmax, rfl, ?_⟩
  unfold mergeWindow
  rw [if_pos h0, hmin, hmax]
  dsimp only
  rw [ite_lt_min qmax qmax0, ite_lt_max qmin qmin0]

/-- Claim C1, witness for the amended theorem at concrete inputs. -/
theorem mergeWindow_bounds_witness :
    ([0, 1, 2, 3] : List ℚ) = [0, 1, 2, 3] ∧
    0 < (sel (overlapIdx
        ⟨[0, 1, 2, 3], [1, 1, 1, 1], [1, 1, 1, 1], -1, 0, none, none, none⟩
        ⟨[0, 1, 2, 3], [1, 2, 4, 1], [1, 1, 1, 1], -1, 0, none, none, none⟩)
      ([0, 1, 2, 3] : List ℚ)).length ∧
    ∃ qmin0 qmax0 idx2,
      (sel (overlapIdx
          ⟨[0, 1, 2, 3], [1, 1, 1, 1], [1, 1, 1, 1], -1, 0, none, none, none⟩
          ⟨[0, 1, 2, 3], [1, 2, 4, 1], [1, 1, 1, 1], -1, 0, none, none, none⟩)
        ([0, 1, 2, 3] : List ℚ)).min? = some qmin0 ∧
      (sel (overlapIdx
          ⟨[0, 1, 2, 3], [1, 1, 1, 1], [1, 1, 1, 1], -1, 0, none, none, none⟩
          ⟨[0, 1, 2, 3], [1, 2, 4, 1], [1, 1, 1, 1], -1, 0, none, none, none⟩)
        ([0, 1, 2, 3] : List ℚ)).max? = some qmax0 ∧
      idx2 = ([0, 1, 2, 3] : List ℚ).map (fun q =>
        decide (max (-1 : ℚ) qmin0 < q) && decide (q < min 10 qmax0)) ∧
      mergeWindow
          ⟨[0, 1, 2, 3], [1, 1, 1, 1], [1, 1, 1, 1], -1, 0, none, none, none⟩
          ⟨[0, 1, 2, 3], [1, 2, 4, 1], [1, 1, 1, 1], -1, 0, none, none, none⟩
          10 (-1) =
        some (max (-1 : ℚ) qmin0, min 10 qmax0, idx2,
          { (⟨[0, 1, 2, 3], [1, 1, 1, 1], [1, 1, 1, 1], -1, 0, none, none,
              none⟩ : Curve ℚ) with
            q_overlap := some (sel idx2 [0, 1, 2, 3]),
            raw_data1 := some (sel idx2 [1, 1, 1, 1]),
            raw_data2 := some (sel idx2 [1, 2, 4, 1]) }) :=
  ⟨rfl, by decide,
    mergeWindow_bounds
      ⟨[0, 1, 2, 3], [1, 1, 1, 1], [1, 1, 1, 1], -1, 0, none, none, none⟩
      ⟨[0, 1, 2, 3], [1, 2, 4, 1], [1, 1, 1, 1], -1, 0, none, none, none⟩
      10 (-1) rfl (by decide)⟩

/-! ### Claim C2 : least-squares merge scale -/

theorem dot_nil_right (a : List ℚ) : dot a [] = 0 := by
  cases a <;> simp [dot]

theorem dot_cons (w v : ℚ) (a b : List ℚ) : dot (w :: a) (v :: b) = w * v + dot a b := by
  simp [dot]

theorem scaleResid_cons (w v t : ℚ) (a b : List ℚ) :
    scaleResid (w :: a) (v :: b) t = (w * t - v) ^ 2 + scaleResid a b t := by
  simp [scaleResid]

theorem scaleResid_eq_quadratic (a : List ℚ) :
    ∀ (b : List ℚ), a.length = b.length → ∀ t,
      scaleResid a b t = dot a a * t ^ 2 - 2 * dot a b * t + dot b b := by
  induction a with
  | nil =>
    intro b hb t
    rw [List.length_nil] at hb
    obtain rfl := (List.length_eq_zero.mp hb.symm)
    simp [scaleResid, dot]
  | cons w a ih =>
    intro b hb t
    cases b with
    | nil => simp at hb
    | cons v b =>
      rw [scaleResid_cons, dot_cons, dot_cons, dot_cons,
        ih b (by simpa using hb) t]
      ring

theorem dot_self_nonneg (a : List ℚ) : 0 ≤ dot a a := by
  induction a with
  | nil => simp [dot]
  | cons w a ih => rw [dot_cons]; exact add_nonneg (mul_self_nonneg w) ih

theorem dot_self_eq_zero (a : List ℚ) (h : dot a a = 0) : ∀ x ∈ a, x = 0 := by
  induction a with
  | nil => simp
  | cons w a ih =>
    rw [dot_cons] at h
    have hw : w * w = 0 ∧ dot a a = 0 :=
      (add_eq_zero_iff_of_nonneg (mul_self_nonneg w) (dot_self_nonneg a)).mp h
    intro x hx
    rcases List.mem_cons.mp hx with rfl | hx
    · exact mul_self_eq_zero.mp hw.1
    · exact ih hw.2 x hx

theorem dot_eq_zero_left (a : List ℚ) (h : ∀ x ∈ a, x = 0) :
    ∀ b : List ℚ, dot a b = 0 := by
  induction a with
  | nil => intro b; simp [dot]
  | cons w a ih =>
    intro b
    cases b with
    | nil => exact dot_nil_right _
    | cons v b =>
      rw [dot_cons, h w (List.mem_cons_self w a), zero_mul, zero_add]
      exact ih (fun x hx => h x (List.mem_cons_of_mem w hx)) b

/-- The closed-form `lstsq` solution `dot a b / dot a a` minimizes the
residual `sum ((a_i * t - b_i)^2)` over all scalars `t`. -/
theorem scaleResid_min (a b : List ℚ) (hlen : a.length = b.length) (t : ℚ) :
    scaleResid a b (dot a b / dot a a) ≤ scaleResid a b t := by
  rcases eq_or_lt_of_le (dot_self_nonneg a) with h0 | hpos
  · have hz : ∀ x ∈ a, x = 0 := dot_self_eq_zero a h0.symm
    have hB : dot a b = 0 := dot_eq_zero_left a hz b
    rw [scaleResid_eq_quadratic a b hlen, scaleResid_eq_quadratic a b hlen,
      ← h0, hB]
    ring_nf
    exact le_refl _
  · have hA : dot a a ≠ 0 := ne_of_gt hpos
    have key : scaleResid a b t - scaleResid a b (dot a b / dot a a) =
        dot a a * (t - dot a b / dot a a) ^ 2 := by
      rw [scaleResid_eq_quadratic a b hlen, scaleResid_eq_quadratic a b hlen]
      field_simp
      ring
    nlinarith [mul_nonneg hpos.le (sq_nonneg (t - dot a b / dot a a))]

theorem sel_cons {α : Type} (b : Bool) (x : α) (m : List Bool) (xs : List α) :
    sel (b :: m) (x :: xs) = if b then x :: sel m xs else sel m xs := by
  cases b <;> simp [sel]

theorem sel_length_eq {α β : Type} (m : List Bool) :
    ∀ (xs : List α) (ys : List β), xs.length = ys.length →
      (sel m xs).length = (sel m ys).length := by
  induction m with
  | nil => intro xs ys h; simp [sel]
  | cons b m ih =>
    intro xs ys h
    cases xs with
    | nil =>
      cases ys with
      | nil => rfl
      | cons y ys => simp at h
    | cons x xs =>
      cases ys with
      | nil => simp at h
      | cons y ys =>
        rw [sel_cons, sel_cons]
        cases b with
        | false => simpa using ih xs ys (by simpa using h)
        | true => simpa using ih xs ys (by simpa using h)

/-- The window step leaves the numeric state of the receiver untouched: only
the overlap diagnostics change. -/
theorem mergeWindow_state (s d1 : Curve ℚ) (qmax qmin qmn qmx : ℚ)
    (idx2 : List Bool) (s1 : Curve ℚ)
    (hw : mergeWindow s d1 qmax qmin = some (qmn, qmx, idx2, s1)) :
    s1.qgrid = s.qgrid ∧ s1.data = s.data ∧ s1.err = s.err := by
  unfold mergeWindow at hw
  dsimp only at hw
  by_cases h0 : 0 < (sel (overlapIdx s d1) s.qgrid).length
  · rw [if_pos h0] at hw
    split at hw
    · simp only [Option.some.injEq, Prod.mk.injEq] at hw
      obtain ⟨-, -, -, h4⟩ := hw
      subst h4
      exact ⟨rfl, rfl, rfl⟩
    · exact Option.noConfusion hw
  · rw [if_neg h0] at hw
    split at hw
    · exact Option.noConfusion hw
    · simp only [Option.some.injEq, Prod.mk.injEq] at hw
      obtain ⟨-, -, -, h4⟩ := hw
      subst h4
      exact ⟨rfl, rfl, rfl⟩

/-- Claim C2, counterexample.  The claim says the applied scale minimizes the
residual of `other.intensity[overlap] * sc ≈ self.intensity[overlap]`.  On
the curves below (overlap windows `self = [1,1]`, `other = [2,4]`) the source
computes `sc = 3` — `np.linalg.lstsq(self[idx].T, d1[idx].T)` regresses
`other` on `self`, the opposite direction — while `sc = 3` does not minimize
the claimed residual: `t = 3/10` does strictly better. -/
theorem merge_scale_wrong_direction :
    (merge ⟨[0, 1, 2, 3], [1, 1, 1, 1], [1, 1, 1, 1], -1, 0, none, none, none⟩
        ⟨[0, 1, 2, 3], [1, 2, 4, 1], [1, 1, 1, 1], -1, 0, none, none, none⟩
        10 (-1) (-1)).map (fun r => r.2.2.1) = some 3 ∧
    scaleResidSpec [1, 1] [2, 4] (3 / 10) < scaleResidSpec [1, 1] [2, 4] 3 := by
  constructor
  · norm_num [merge, mergeWindow, overlapIdx, sel, dot, pos, zipw3]
  · norm_num [scaleResidSpec]

/-- Claim C2 (amended): with no fixed scale supplied (`fix_scale ≤ 0`) and a
recomputed window of at least 2 points, the applied scale is
`sc = dot(self[idx], other[idx]) / dot(self[idx], self[idx])`, the scalar
minimizing the least-squares residual of
`self.intensity[overlap] * sc ≈ other.intensity[overlap]` (the regression
direction is self-on-other, opposite to the claim); `other`'s intensity and
uncertainty, and the stored overlap-diagnostic copy of `other`'s values, are
then divided by `sc` everywhere. -/
theorem merge_leastsq_scale (s d1 : Curve ℚ) (qmax qmin fs qmn qmx : ℚ)
    (idx2 : List Bool) (s1 : Curve ℚ)
    (hg : d1.qgrid = s.qgrid)
    (hw : mergeWindow s d1 qmax qmin = some (qmn, qmx, idx2, s1))
    (hfs : fs ≤ 0)
    (hln : 2 ≤ (sel idx2 s.qgrid).length)
    (hlen : d1.data.length = s.data.length) :
    ∃ sout dout,
      merge s d1 qmax qmin fs =
        some (sout, dout,
          dot (sel idx2 s.data) (sel idx2 d1.data) /
            dot (sel idx2 s.data) (sel idx2 s.data), qmn, qmx) ∧
      (∀ t, scaleResid (sel idx2 s.data) (sel idx2 d1.data)
          (dot (sel idx2 s.data) (sel idx2 d1.data) /
            dot (sel idx2 s.data) (sel idx2 s.data)) ≤
        scaleResid (sel idx2 s.data) (sel idx2 d1.data) t) ∧
      dout.data = d1.data.map (· /
        (dot (sel idx2 s.data) (sel idx2 d1.data) /
          dot (sel idx2 s.data) (sel idx2 s.data))) ∧
      dout.err = d1.err.map (· /
        (dot (sel idx2 s.data) (sel idx2 d1.data) /
          dot (sel idx2 s.data) (sel idx2 s.data))) ∧
      sout.raw_data2 = (s1.raw_data2.map (List.map (· /
        (dot (sel idx2 s.data) (sel idx2 d1.data) /
          dot (sel idx2 s.data) (sel idx2 s.data))))) := by
  obtain ⟨hq1, hd1, he1⟩ := mergeWindow_state s d1 qmax qmin qmn qmx idx2 s1 hw
  have hLV : (sel idx2 s.data).length = (sel idx2 d1.data).length :=
    sel_length_eq idx2 s.data d1.data hlen.symm
  set SC : ℚ := dot (sel idx2 s.data) (sel idx2 d1.data) /
    dot (sel idx2 s.data) (sel idx2 s.data) with hSC
  have hM : merge s d1 qmax qmin fs = some (
      { s1 with
        qgrid := s.qgrid,
        data := zipw3 (fun q x y => if qmx ≤ q then y else x) s.qgrid
          (zipw3 (fun m x y => if m = true then (x + y) / 2 else x) idx2 s.data
            (d1.data.map (· / SC)))
          (d1.data.map (· / SC)),
        err := zipw3 (fun q x y => if qmx ≤ q then y else x) s.qgrid
          (zipw3 (fun m x y => if m = true then (x + y) / 2 else x) idx2 s1.err
            (d1.err.map (· / SC)))
          (d1.err.map (· / SC)),
        raw_data2 := s1.raw_data2.map (List.map (· / SC)) },
      { d1 with data := d1.data.map (· / SC), err := d1.err.map (· / SC) },
      SC, qmn, qmx) := by
    unfold merge
    rw [if_pos hg, hw]
    dsimp only
    rw [hq1, hd1]
    have hnot2 : ¬((sel idx2 s.qgrid).length < 2 ∧ fs < 0) :=
      fun hcon => absurd hcon.1 (by omega)
    rw [if_neg hnot2]
    rw [if_neg (not_lt.mpr hfs)]
    simp only [if_pos (show 0 < (sel idx2 s.qgrid).length by omega)]
  exact ⟨_, _, hM, fun t => scaleResid_min _ _ hLV t, rfl, rfl, rfl⟩

/-- Claim C2, witness for the amended theorem at concrete inputs. -/
theorem merge_leastsq_scale_witness :
    ((-1 : ℚ) ≤ 0) ∧
    2 ≤ (sel [false, true, true, false] ([0, 1, 2, 3] : List ℚ)).length ∧
    ∃ sout dout,
      merge ⟨[0, 1, 2, 3], [1, 1, 1, 1], [1, 1, 1, 1], -1, 0, none, none, none⟩
          ⟨[0, 1, 2, 3], [1, 2, 4, 1], [1, 1, 1, 1], -1, 0, none, none, none⟩
          10 (-1) (-1) =
        some (sout, dout,
          dot (sel [false, true, true, false] [1, 1, 1, 1])
              (sel [false, true, true, false] [1, 2, 4, 1]) /
            dot (sel [false, true, true, false] [1, 1, 1, 1])
              (sel [false, true, true, false] [1, 1, 1, 1]), 0, 3) ∧
      ∀ t, scaleResid (sel [false, true, true, false] [1, 1, 1, 1])
          (sel [false, true, true, false] [1, 2, 4, 1])
          (dot (sel [false, true, true, false] [1, 1, 1, 1])
              (sel [false, true, true, false] [1, 2, 4, 1]) /
            dot (sel [false, true, true, false] [1, 1, 1, 1])
              (sel [false, true, true, false] [1, 1, 1, 1])) ≤
        scaleResid (sel [false, true, true, false] [1, 1, 1, 1])
          (sel [false, true, true, false] [1, 2, 4, 1]) t := by
  refine ⟨by norm_num, by decide, ?_⟩
  obtain ⟨sout, dout, hM, hmin, -, -, -⟩ :=
    merge_leastsq_scale
      ⟨[0, 1, 2, 3], [1, 1, 1, 1], [1, 1, 1, 1], -1, 0, none, none, none⟩
      ⟨[0, 1, 2, 3], [1, 2, 4, 1], [1, 1, 1, 1], -1, 0, none, none, none⟩
      10 (-1) (-1) 0 3 [false, true, true, false]
      { (⟨[0, 1, 2, 3], [1, 1, 1, 1], [1, 1, 1, 1], -1, 0, none, none,
          none⟩ : Curve ℚ) with
        q_overlap := some [1, 2], raw_data1 := some [1, 1],
        raw_data2 := some [2, 4] }
      rfl rfl (by norm_num) (by decide) rfl
  exact ⟨sout, dout, hM, hmin⟩

/-! ### Claim C9 : self-merge is the identity -/

theorem map_div_one (l : List ℚ) : l.map (fun x => x / 1) = l := by
  simp

/-- Claim C9: merging a curve with positive-intensity points with an
identical-grid copy of itself (default window and scale arguments, as the
orchestrator uses them) leaves the receiver's intensity and uncertainty
unchanged, leaves the co-operand's intensity and uncertainty unchanged, and
applies a scale factor of exactly 1.  (With the default `qmax = qmin = -1`
the recomputed window is empty, so the forced scale is 1 and both the
averaging and the tail-replacement steps copy the original values.) -/
theorem merge_self_identity (a : Curve ℚ)
    (hd : a.data.length = a.qgrid.length) (he : a.err.length = a.qgrid.length)
    (h0 : 0 < (sel (overlapIdx a a) a.qgrid).length) :
    ∃ out, merge a a (-1) (-1) (-1) = some out ∧
      out.1.data = a.data ∧ out.1.err = a.err ∧
      out.2.1.data = a.data ∧ out.2.1.err = a.err ∧
      out.2.2.1 = 1 := by
  have hne : sel (overlapIdx a a) a.qgrid ≠ [] := by
    intro hnil
    rw [hnil] at h0
    simp at h0
  obtain ⟨qmax0, hmax⟩ : ∃ y, (sel (overlapIdx a a) a.qgrid).max? = some y := by
    cases hm : (sel (overlapIdx a a) a.qgrid).max? with
    | none => exact absurd (List.max?_eq_none_iff.mp hm) hne
    | some y => exact ⟨y, rfl⟩
  obtain ⟨qmin0, hmin⟩ : ∃ y, (sel (overlapIdx a a) a.qgrid).min? = some y := by
    cases hm : (sel (overlapIdx a a) a.qgrid).min? with
    | none => exact absurd (List.min?_eq_none_iff.mp hm) hne
    | some y => exact ⟨y, rfl⟩
  set qmax1 : ℚ := if qmax0 < (-1 : ℚ) then qmax0 else -1 with hqmax1
  set qmin1 : ℚ := if (-1 : ℚ) < qmin0 then qmin0 else -1 with hqmin1
  have hord : qmax1 ≤ qmin1 := by
    rw [hqmax1, hqmin1]
    split_ifs <;> linarith
  have hfalse : ∀ q : ℚ, (decide (qmin1 < q) && decide (q < qmax1)) = false := by
    intro q
    by_cases h1 : qmin1 < q
    · rw [decide_eq_false (show ¬ q < qmax1 by linarith), Bool.and_false]
    · rw [decide_eq_false h1, Bool.false_and]
  have hsel : ∀ xs : List ℚ,
      sel (a.qgrid.map (fun q => decide (qmin1 < q) && decide (q < qmax1))) xs
        = ([] : List ℚ) :=
    fun xs => sel_map_false _ hfalse a.qgrid xs
  have hW : mergeWindow a a (-1) (-1) = some (qmin1, qmax1,
      a.qgrid.map (fun q => decide (qmin1 < q) && decide (q < qmax1)),
      { a with q_overlap := some [], raw_data1 := some [], raw_data2 := some [] }) := by
    unfold mergeWindow
    rw [if_pos h0, hmin, hmax]
    dsimp only
    rw [← hqmax1, ← hqmin1, hsel a.qgrid, hsel a.data]
  have hM : merge a a (-1) (-1) (-1) = some (
      { a with q_overlap := some [], raw_data1 := some [], raw_data2 := some [] },
      a, 1, qmin1, qmax1) := by
    unfold merge
    rw [if_pos rfl, hW]
    dsimp only
    rw [hsel a.qgrid]
    norm_num
    exact ⟨@zipw3_same (fun q x y => if qmax1 ≤ q then y else x)
        (fun q x => ite_self x) a.qgrid a.data (le_of_eq hd),
      @zipw3_same (fun q x y => if qmax1 ≤ q then y else x)
        (fun q x => ite_self x) a.qgrid a.err (le_of_eq he)⟩
  exact ⟨_, hM, rfl, rfl, rfl, rfl, rfl⟩

/-- Claim C9, witness at a concrete input. -/
theorem merge_self_identity_witness :
    (([1, 2, 4, 1] : List ℚ).length = ([0, 1, 2, 3] : List ℚ).length) ∧
    (([2, 2, 2, 2] : List ℚ).length = ([0, 1, 2, 3] : List ℚ).length) ∧
    ∃ out, merge ⟨[0, 1, 2, 3], [1, 2, 4, 1], [2, 2, 2, 2], -1, 0, none, none, none⟩
        ⟨[0, 1, 2, 3], [1, 2, 4, 1], [2, 2, 2, 2], -1, 0, none, none, none⟩
        (-1) (-1) (-1) = some out ∧
      out.1.data = [1, 2, 4, 1] ∧ out.1.err = [2, 2, 2, 2] ∧
      out.2.1.data = [1, 2, 4, 1] ∧ out.2.1.err = [2, 2, 2, 2] ∧
      out.2.2.1 = 1 :=
  ⟨rfl, rfl,
    merge_self_identity
      ⟨[0, 1, 2, 3], [1, 2, 4, 1], [2, 2, 2, 2], -1, 0, none, none, none⟩
      rfl rfl (by decide)⟩

/-! ### Claim C10 : the q grid is never mutated -/

theorem foldl_option_none {α β : Type} (F : Option β → α → Option β)
    (hF : ∀ a, F none a = none) : ∀ ds : List α, ds.foldl F none = none := by
  intro ds
  induction ds with
  | nil => rfl
  | cons d ds ih =>
    show List.foldl F (F none d) ds = none
    rw [hF d]
    exact ih

theorem foldl_option_qgrid {α : Type} (F : Option (Curve ℝ) → α → Option (Curve ℝ))
    (hF : ∀ c d c', F (some c) d = some c' → c'.qgrid = c.qgrid)
    (hFn : ∀ d, F none d = none) :
    ∀ (ds : List α) (c c' : Curve ℝ), ds.foldl F (some c) = some c' →
      c'.qgrid = c.qgrid := by
  intro ds
  induction ds with
  | nil =>
    intro c c' h
    simp only [List.foldl_nil, Option.some.injEq] at h
    rw [← h]
  | cons d ds ih =>
    intro c c' h
    rw [List.foldl_cons] at h
    cases hF1 : F (some c) d with
    | none =>
      rw [hF1, foldl_option_none F hFn ds] at h
      exact Option.noConfusion h
    | some c2 =>
      rw [hF1] at h
      rw [ih c2 c' h]
      exact hF c d c2 hF1

/-- Claim C10: none of the in-place curve operations — `set_trans`, `avg`,
`bkg_cor`, `merge` — changes the receiver's q grid (nor, for `merge`, the
co-operand's); consequently the strictly-increasing-grid invariant is
preserved across the pipeline. -/
theorem pipeline_qgrid_preserved :
    (∀ (mode : ℕ) (c : Curve ℚ) (t r : ℚ) (o : Curve ℚ),
        set_trans mode c t r = some o → o.qgrid = c.qgrid) ∧
    (∀ (s : Curve ℝ) (ds : List (Curve ℝ)) (o : Curve ℝ),
        avg s ds = some o → o.qgrid = s.qgrid) ∧
    (∀ (s dbak : Curve ℚ) (f : ℚ) (pd : Bool) (o : Curve ℚ × ℚ),
        bkg_cor s dbak f pd = some o → o.1.qgrid = s.qgrid) ∧
    (∀ (s d1 : Curve ℚ) (qmax qmin fs : ℚ) (o : Curve ℚ × Curve ℚ × ℚ × ℚ × ℚ),
        merge s d1 qmax qmin fs = some o →
          o.1.qgrid = s.qgrid ∧ o.2.1.qgrid = d1.qgrid ∧
          (List.Chain' (· < ·) s.qgrid → List.Chain' (· < ·) o.1.qgrid)) := by
  refine ⟨?_, ?_, ?_, ?_⟩
  · intro mode c t r o h
    unfold set_trans at h
    dsimp only at h
    repeat' split at h
    all_goals
      first
        | exact Option.noConfusion h
        | (simp only [Option.map_some', Option.some.injEq] at h
           subst h
           rfl)
  · intro s ds o h
    unfold avg at h
    try dsimp only at h
    cases hfold : ds.foldl (fun acc d1 => acc.bind (fun c =>
        if d1.qgrid = s.qgrid then
          some { c with
                 trans := c.trans + d1.trans,
                 data := List.zipWith (· + ·) c.data d1.data,
                 err := List.zipWith (· + ·) c.err d1.err }
        else none)) (some s) with
    | none =>
      rw [hfold] at h
      exact Option.noConfusion h
    | some c' =>
      rw [hfold] at h
      simp only [Option.map_some', Option.some.injEq] at h
      subst h
      show c'.qgrid = s.qgrid
      refine foldl_option_qgrid _ ?_ (fun d => rfl) ds s c' hfold
      intro c d c2 h1
      simp only [Option.some_bind] at h1
      split at h1
      · simp only [Option.some.injEq] at h1
        subst h1
        rfl
      · exact Option.noConfusion h1
  · intro s dbak f pd o h
    unfold bkg_cor at h
    try dsimp only at h
    split at h
    · simp only [Option.some.injEq] at h
      subst h
      show (_ : Curve ℚ).qgrid = s.qgrid
      split <;> rfl
    · exact Option.noConfusion h
  · intro s d1 qmax qmin fs o h
    unfold merge at h
    dsimp only at h
    split at h
    · cases hmw : mergeWindow s d1 qmax qmin with
      | none =>
        rw [hmw] at h
        exact Option.noConfusion h
      | some r =>
        obtain ⟨qmn, qmx, idx2, s1⟩ := r
        rw [hmw] at h
        dsimp only at h
        simp only [Option.some.injEq] at h
        subst h
        obtain ⟨hq1, -, -⟩ := mergeWindow_state s d1 qmax qmin qmn qmx idx2 s1 hmw
        refine ⟨?_, rfl, ?_⟩
        · dsimp only
          split <;> exact hq1
        · intro hc
          dsimp only
          split <;> (rw [hq1]; exact hc)
    · exact Option.noConfusion h

/-- Claim C10, witness at concrete inputs, one per pipeline operation. -/
theorem pipeline_qgrid_preserved_witness :
    (set_trans TRANS_EXTERNAL ⟨[1, 2], [3, 4], [1, 1], -1, 0, none, none, none⟩
        5 (-1)).map Curve.qgrid = some [1, 2] ∧
    (avg ⟨[1, 2], [3, 4], [1, 1], 2, 0, none, none, none⟩ []).map Curve.qgrid
      = some [1, 2] ∧
    (bkg_cor ⟨[1, 2], [3, 4], [1, 1], 6, 0, none, none, none⟩
        ⟨[1, 2], [1, 1], [1, 1], 2, 0, none, none, none⟩ 1 false).map
        (fun p => p.1.qgrid) = some [1, 2] ∧
    (merge ⟨[0, 1, 2, 3], [1, 2, 4, 1], [2, 2, 2, 2], -1, 0, none, none, none⟩
        ⟨[0, 1, 2, 3], [1, 2, 4, 1], [2, 2, 2, 2], -1, 0, none, none, none⟩
        (-1) (-1) (-1)).map (fun p => p.1.qgrid) = some [0, 1, 2, 3] := by
  refine ⟨?_, ?_, ?_, ?_⟩
  · obtain ⟨o, ho⟩ : ∃ o, set_trans TRANS_EXTERNAL
        ⟨[1, 2], [3, 4], [1, 1], -1, 0, none, none, none⟩ 5 (-1) = some o := ⟨_, rfl⟩
    rw [ho, Option.map_some']
    exact congrArg some (pipeline_qgrid_preserved.1 _ _ _ _ _ ho)
  · obtain ⟨o, ho⟩ : ∃ o, avg ⟨[1, 2], [3, 4], [1, 1], 2, 0, none, none, none⟩ []
        = some o := ⟨_, rfl⟩
    rw [ho, Option.map_some']
    exact congrArg some (pipeline_qgrid_preserved.2.1 _ _ _ ho)
  · obtain ⟨o, ho⟩ : ∃ o, bkg_cor ⟨[1, 2], [3, 4], [1, 1], 6, 0, none, none, none⟩
        ⟨[1, 2], [1, 1], [1, 1], 2, 0, none, none, none⟩ 1 false = some o := ⟨_, rfl⟩
    rw [ho, Option.map_some']
    exact congrArg some (pipeline_qgrid_preserved.2.2.1 _ _ _ _ _ ho)
  · obtain ⟨o, ho⟩ : ∃ o, merge
        ⟨[0, 1, 2, 3], [1, 2, 4, 1], [2, 2, 2, 2], -1, 0, none, none, none⟩
        ⟨[0, 1, 2, 3], [1, 2, 4, 1], [2, 2, 2, 2], -1, 0, none, none, none⟩
        (-1) (-1) (-1) = some o := ⟨_, rfl⟩
    rw [ho, Option.map_some']
    exact congrArg some (pipeline_qgrid_preserved.2.2.2 _ _ _ _ _ _ ho).1

/-! ### Claim C7 : replicate averaging -/

theorem zipWith_add_getD (l1 : List ℝ) :
    ∀ (l2 : List ℝ), l2.length = l1.length → ∀ i, i < l1.length →
      (List.zipWith (· + ·) l1 l2).getD i 0 = l1.getD i 0 + l2.getD i 0 := by
  induction l1 with
  | nil => intro l2 h i hi; simp at hi
  | cons x l1 ih =>
    intro l2 h i hi
    cases l2 with
    | nil => simp at h
    | cons y l2 =>
      cases i with
      | zero => simp
      | succ i =>
        simp only [List.zipWith_cons_cons, List.getD_cons_succ]
        exact ih l2 (by simpa using h) i (by simpa using hi)

theorem map_div_getD (l : List ℝ) (c : ℝ) :
    ∀ i, ((l.map (· / c)).getD i 0) = l.getD i 0 / c := by
  induction l with
  | nil => intro i; simp [zero_div]
  | cons x l ih =>
    intro i
    cases i with
    | zero => simp
    | succ i => simpa using ih i

theorem avg_foldl_char (s : Curve ℝ) :
    ∀ (ds : List (Curve ℝ)) (c : Curve ℝ),
      (∀ d ∈ ds, d.qgrid = s.qgrid) →
      (∀ d ∈ ds, d.data.length = c.data.length) →
      (∀ d ∈ ds, d.err.length = c.err.length) →
      ∃ c', ds.foldl (fun acc d1 =>
          acc.bind (fun c =>
            if d1.qgrid = s.qgrid then
              some { c with
                     trans := c.trans + d1.trans,
                     data := List.zipWith (· + ·) c.data d1.data,
                     err := List.zipWith (· + ·) c.err d1.err }
            else none)) (some c) = some c' ∧
        c'.qgrid = c.qgrid ∧
        c'.trans = c.trans + (ds.map Curve.trans).sum ∧
        c'.data.length = c.data.length ∧
        c'.err.length = c.err.length ∧
        (∀ i, i < c.data.length →
          c'.data.getD i 0 = c.data.getD i 0 +
            ((ds.map (fun d => d.data.getD i 0)).sum)) ∧
        (∀ i, i < c.err.length →
          c'.err.getD i 0 = c.err.getD i 0 +
            ((ds.map (fun d => d.err.getD i 0)).sum)) := by
  intro ds
  induction ds with
  | nil =>
    intro c _ _ _
    exact ⟨c, rfl, rfl, by simp, rfl, rfl, fun i _ => by simp, fun i _ => by simp⟩
  | cons d ds ih =>
    intro c hg hd he
    have hgd : d.qgrid = s.qgrid := hg d (List.mem_cons_self d ds)
    have hdd : d.data.length = c.data.length := hd d (List.mem_cons_self d ds)
    have hed : d.err.length = c.err.length := he d (List.mem_cons_self d ds)
    have hlen1 : (List.zipWith (· + ·) c.data d.data).length = c.data.length := by
      rw [List.length_zipWith, hdd, Nat.min_self]
    have hlen2 : (List.zipWith (· + ·) c.err d.err).length = c.err.length := by
      rw [List.length_zipWith, hed, Nat.min_self]
    obtain ⟨c', hfold, hq, htr, hdl, hel, hdata, herr⟩ :=
      ih { c with
           trans := c.trans + d.trans,
           data := List.zipWith (· + ·) c.data d.data,
           err := List.zipWith (· + ·) c.err d.err }
        (fun d' hd' => hg d' (List.mem_cons_of_mem d hd'))
        (fun d' hd' => by
          rw [hd d' (List.mem_cons_of_mem d hd')]
          exact hlen1.symm)
        (fun d' hd' => by
          rw [he d' (List.mem_cons_of_mem d hd')]
          exact hlen2.symm)
    refine ⟨c', ?_, hq, ?_, ?_, ?_, ?_, ?_⟩
    · rw [List.foldl_cons]
      simpa [hgd] using hfold
    · rw [htr]
      simp [add_assoc]
    · rw [hdl]
      exact hlen1
    · rw [hel]
      exact hlen2
    · intro i hi
      rw [hdata i (by rw [hlen1]; exact hi),
        zipWith_add_getD c.data d.data hdd i hi]
      simp [add_assoc]
    · intro i hi
      rw [herr i (by rw [hlen2]; exact hi),
        zipWith_add_getD c.err d.err hed i hi]
      simp [add_assoc]

/-- Claim C7: the replicate averager sums transmission, intensity and
uncertainty across all curves including the receiver, divides accumulated
transmission and intensity by the count `n = 1 + |dsets|`, and divides the
accumulated uncertainty by `sqrt n`; with a single curve (`dsets = []`,
`n = 1`) the result equals the input unchanged. -/
theorem avg_replicate (s : Curve ℝ) (ds : List (Curve ℝ))
    (hg : ∀ d ∈ ds, d.qgrid = s.qgrid)
    (hd : ∀ d ∈ ds, d.data.length = s.data.length)
    (he : ∀ d ∈ ds, d.err.length = s.err.length) :
    ∃ out, avg s ds = some out ∧
      out.trans * ((ds.length + 1 : ℕ) : ℝ) = s.trans + (ds.map Curve.trans).sum ∧
      out.data.length = s.data.length ∧
      out.err.length = s.err.length ∧
      (∀ i, i < s.data.length →
        out.data.getD i 0 * ((ds.length + 1 : ℕ) : ℝ) =
          s.data.getD i 0 + (ds.map (fun d => d.data.getD i 0)).sum) ∧
      (∀ i, i < s.err.length →
        out.err.getD i 0 * Real.sqrt ((ds.length + 1 : ℕ) : ℝ) =
          s.err.getD i 0 + (ds.map (fun d => d.err.getD i 0)).sum) ∧
      (ds = [] → out = s) := by
  obtain ⟨c', hfold, hq, htr, hdl, hel, hdata, herr⟩ := avg_foldl_char s ds s hg hd he
  have hn : ((ds.length + 1 : ℕ) : ℝ) ≠ 0 := by positivity
  have hsq : Real.sqrt ((ds.length + 1 : ℕ) : ℝ) ≠ 0 := by
    refine ne_of_gt (Real.sqrt_pos.mpr ?_)
    positivity
  have hM : avg s ds = some
      { c' with
        trans := c'.trans / ((ds.length + 1 : ℕ) : ℝ),
        data := c'.data.map (· / ((ds.length + 1 : ℕ) : ℝ)),
        err := c'.err.map (· / Real.sqrt ((ds.length + 1 : ℕ) : ℝ)) } := by
    unfold avg
    rw [hfold, Option.map_some']
  refine ⟨_, hM, ?_, ?_, ?_, ?_, ?_, ?_⟩
  · show c'.trans / _ * _ = _
    rw [div_mul_cancel₀ _ hn, htr]
  · show (c'.data.map _).length = _
    rw [List.length_map, hdl]
  · show (c'.err.map _).length = _
    rw [List.length_map, hel]
  · intro i hi
    show (c'.data.map _).getD i 0 * _ = _
    rw [map_div_getD, div_mul_cancel₀ _ hn, hdata i hi]
  · intro i hi
    show (c'.err.map _).getD i 0 * _ = _
    rw [map_div_getD, div_mul_cancel₀ _ hsq, herr i hi]
  · intro hds
    subst hds
    have hc : c' = s := by simpa using hfold.symm
    subst hc
    ext1 <;> simp [Real.sqrt_one]

/-- Claim C7, witness for the single-curve case at a concrete input. -/
theorem avg_replicate_witness :
    (∀ d ∈ ([] : List (Curve ℝ)), d.qgrid =
      (⟨[1, 2], [3, 4], [1, 1], 2, 0, none, none, none⟩ : Curve ℝ).qgrid) ∧
    ∃ out, avg (⟨[1, 2], [3, 4], [1, 1], 2, 0, none, none, none⟩ : Curve ℝ) []
        = some out ∧
      out.trans * ((([] : List (Curve ℝ)).length + 1 : ℕ) : ℝ) =
        (⟨[1, 2], [3, 4], [1, 1], 2, 0, none, none, none⟩ : Curve ℝ).trans +
          (([] : List (Curve ℝ)).map Curve.trans).sum ∧
      out.data.length =
        (⟨[1, 2], [3, 4], [1, 1], 2, 0, none, none, none⟩ : Curve ℝ).data.length ∧
      out.err.length =
        (⟨[1, 2], [3, 4], [1, 1], 2, 0, none, none, none⟩ : Curve ℝ).err.length ∧
      (∀ i, i <
          (⟨[1, 2], [3, 4], [1, 1], 2, 0, none, none, none⟩ : Curve ℝ).data.length →
        out.data.getD i 0 * ((([] : List (Curve ℝ)).length + 1 : ℕ) : ℝ) =
          (⟨[1, 2], [3, 4], [1, 1], 2, 0, none, none, none⟩ : Curve ℝ).data.getD i 0 +
            (([] : List (Curve ℝ)).map (fun d => d.data.getD i 0)).sum) ∧
      (∀ i, i <
          (⟨[1, 2], [3, 4], [1, 1], 2, 0, none, none, none⟩ : Curve ℝ).err.length →
        out.err.getD i 0 * Real.sqrt ((([] : List (Curve ℝ)).length + 1 : ℕ) : ℝ) =
          (⟨[1, 2], [3, 4], [1, 1], 2, 0, none, none, none⟩ : Curve ℝ).err.getD i 0 +
            (([] : List (Curve ℝ)).map (fun d => d.err.getD i 0)).sum) ∧
      (([] : List (Curve ℝ)) = [] →
        out = (⟨[1, 2], [3, 4], [1, 1], 2, 0, none, none, none⟩ : Curve ℝ)) :=
  ⟨by simp,
    avg_replicate (⟨[1, 2], [3, 4], [1, 1], 2, 0, none, none, none⟩ : Curve ℝ) []
      (by simp) (by simp) (by simp)⟩

/-! ### Claim C8 : the Guinier analyzer -/

theorem sel_pos_eq_filter_zip (g : List ℝ) :
    ∀ l : List ℝ, sel (l.map (fun x => decide ((0 : ℝ) < x))) g =
      ((g.zip l).filter (fun p => decide ((0 : ℝ) < p.2))).map (fun p => p.1) := by
  induction g with
  | nil => intro l; cases l <;> simp [sel]
  | cons q g ih =>
    intro l
    cases l with
    | nil => simp [sel]
    | cons x l =>
      by_cases hx : (0 : ℝ) < x
      · simp [sel_cons, List.filter_cons, hx, ih l]
      · simp [sel_cons, List.filter_cons, hx, ih l]

theorem zip_map_mul (l1 : List ℝ) :
    ∀ l2 : List ℝ, (l1.zip l2).map (fun p => p.1 * p.2) =
      List.zipWith (fun a b => a * b) l1 l2 := by
  induction l1 with
  | nil => intro l2; simp
  | cons x l1 ih =>
    intro l2
    cases l2 with
    | nil => simp
    | cons y l2 => simpa using ih l2

/-- Each pass of the source loop body equals the claim-side OLS iteration. -/
theorem guinierStep_eq_spec (c : Curve ℝ) (qs : ℝ) (fq : Bool) (st : ℝ × ℝ × ℝ) :
    guinierStep c qs fq st = guinierSpecStep c qs fq st := by
  unfold guinierStep guinierSpecStep polyfit1
  dsimp only
  set qe1 := if fq = false ∧ 1 / st.2.1 < st.1 ∧ qs + 0.004 < 1 / st.2.1
    then 1 / st.2.1 else st.1 with hqe1
  have hfil : ((c.qgrid.zip c.data).filter (fun p => decide (qs ≤ p.1))).filter
      (fun p => decide (p.1 ≤ qe1)) =
      (c.qgrid.zip c.data).filter (fun p => decide (qs ≤ p.1) && decide (p.1 ≤ qe1)) := by
    rw [List.filter_filter]
    exact List.filter_congr (fun a _ => Bool.and_comm _ _)
  rw [hfil]
  set pts := (c.qgrid.zip c.data).filter
    (fun p => decide (qs ≤ p.1) && decide (p.1 ≤ qe1)) with hpts
  have hxs : pts.map (fun p => p.1 * p.1) = pts.map (fun p => p.1 ^ 2) :=
    List.map_congr_left (fun a _ => (pow_two a.1).symm)
  rw [hxs]
  rw [zip_map_mul]
  have hsxx : (pts.map (fun p => p.1 ^ 2)).map (fun a => a * a) =
      (pts.map (fun p => p.1 ^ 2)).map (fun a => a ^ 2) :=
    List.map_congr_left (fun a _ => (pow_two a).symm)
  rw [hsxx]
  rw [show ((pts.map (fun p => p.1 ^ 2)).sum) * ((pts.map (fun p => p.1 ^ 2)).sum)
      = ((pts.map (fun p => p.1 ^ 2)).sum) ^ 2 from (pow_two _).symm]
  simp only [Prod.mk.injEq]
  refine ⟨trivial, congrArg Real.sqrt (by ring), trivial⟩

/-- Claim C8: the Guinier analyzer equals its claim-side description — clamp
`qs` up to the first grid value with positive intensity, then 10 iterations,
each shrinking `qe` to `1/Rg` when `fixQe` is false and `qe > 1/Rg > qs +
0.004`, selecting the points with `qs ≤ q ≤ qe`, OLS-regressing
`ln(intensity)` against `q^2`, and setting `I0 = exp(intercept)`,
`Rg = sqrt(-3 slope)`; the final `(I0, Rg)` pair is returned. -/
theorem plot_Guinier_eq_spec (c : Curve ℝ) (qs qe rg : ℝ) (fq : Bool) :
    plot_Guinier c qs qe rg fq = guinierSpec c qs qe rg fq := by
  unfold plot_Guinier guinierSpec
  rw [sel_pos_eq_filter_zip, List.head?_map]
  cases hh : ((c.qgrid.zip c.data).filter (fun p => decide ((0 : ℝ) < p.2))).head? with
  | none => rfl
  | some p =>
    dsimp only [Option.map_some']
    rw [ite_lt_max qs p.1]
    have hstep : guinierStep c (max qs p.1) fq = guinierSpecStep c (max qs p.1) fq :=
      funext (guinierStep_eq_spec c (max qs p.1) fq)
    rw [hstep]

/-! ### Claim C3 : the pair-distance transform -/

theorem sum_map_div (l : List ℝ) (s : ℝ) : (l.map (· / s)).sum = l.sum / s := by
  induction l with
  | nil => simp [zero_div]
  | cons x l ih =>
    rw [List.map_cons, List.sum_cons, List.sum_cons, ih, add_div]

/-- Claim C3, counterexample.  The claim says `plot_pr` returns the computed
P(r) sequence; the source function (slnXS.py lines 479-511) has no return
statement, so it returns `None` — the normalized sequence is only plotted. -/
theorem plot_pr_returns_nothing :
    (plot_pr ⟨[1, 2], [3, 5], [], -1, 0, none, none, none⟩ 7 1 2 2).ret = none := by
  rfl

/-- Claim C3 (amended): for every input whose unnormalized P(r) sum is
nonzero, `plot_pr` computes and plots the P(r) sequence normalized so that
its entries sum to 1 — but it returns `None`, not the sequence. -/
theorem plot_pr_sum_one (c : Curve ℝ) (i0 rg qmax : ℝ) (dmax : ℕ)
    (h : (prUnnorm c i0 rg qmax dmax).sum ≠ 0) :
    (plot_pr c i0 rg qmax dmax).plotted.sum = 1 ∧
    (plot_pr c i0 rg qmax dmax).ret = none := by
  constructor
  · show ((prUnnorm c i0 rg qmax dmax).map
      (· / (prUnnorm c i0 rg qmax dmax).sum)).sum = 1
    rw [sum_map_div, div_self h]
  · rfl

/-- Concrete evaluation of the unnormalized P(r) sum on a 2-point curve. -/
theorem prUnnorm_concrete_value :
    (prUnnorm ⟨[1, 2], [3, 5], [], -1, 0, none, none, none⟩ 7 1 2 2).sum
    = 3 / 2 * Real.sin 1 := by
  have hc : Real.cos (2 * Real.pi * 3 / 4) = 0 := by
    have h32 : 2 * Real.pi * 3 / 4 = Real.pi + Real.pi / 2 := by ring
    rw [h32, Real.cos_add, Real.cos_pi, Real.sin_pi, Real.cos_pi_div_two]
    ring
  have hpi : Real.pi * Real.pi⁻¹ = 1 := mul_inv_cancel₀ Real.pi_ne_zero
  simp only [prUnnorm, interp, npsinc]
  norm_num [List.range_succ, interpGo, Real.pi_ne_zero, hc, hpi]
  ring

/-- Claim C3, witness for the amended theorem at a concrete input, whose
unnormalized sum evaluates to `3/2 * sin 1 > 0`. -/
theorem plot_pr_sum_one_witness :
    (prUnnorm ⟨[1, 2], [3, 5], [], -1, 0, none, none, none⟩ 7 1 2 2).sum ≠ 0 ∧
    (plot_pr ⟨[1, 2], [3, 5], [], -1, 0, none, none, none⟩ 7 1 2 2).plotted.sum = 1 ∧
    (plot_pr ⟨[1, 2], [3, 5], [], -1, 0, none, none, none⟩ 7 1 2 2).ret = none := by
  have hS : (prUnnorm ⟨[1, 2], [3, 5], [], -1, 0, none, none, none⟩ 7 1 2 2).sum ≠ 0 := by
    rw [prUnnorm_concrete_value]
    have hsin : 0 < Real.sin 1 :=
      Real.sin_pos_of_pos_of_lt_pi (by norm_num)
        (lt_trans (by norm_num) Real.pi_gt_three)
    positivity
  exact ⟨hS, plot_pr_sum_one _ 7 1 2 2 hS⟩

end PyXS
